import Mathlib

/-!
Verification of the GraphRAG ML worker core (`ml_worker/entities.py`,
`ml_worker/embeddings.py`, `ml_worker/server.py`).

Texts are modelled as `List Char` (Python string indices are code-point
indices, matching list positions).  Each regular expression in the
`PATTERNS` table of `entities.py` is translated token-by-token into a
matcher combinator: a matcher returns, in backtracking priority order,
the candidate end positions of a match starting at a given position,
reproducing Python `re` leftmost/first-alternative/greedy semantics
(the head of the list, when non-empty, is the match `re.finditer` picks).
-/

/-- Python `\w` word character (ASCII approximation: alphanumeric or `_`). -/
def wordChar (c : Char) : Bool := c.isAlphanum || c == '_'

/-- Character of `t` at index `i`, with a non-word default off either end. -/
def charAt (t : List Char) (i : Nat) : Char := t.getD i ' '

/-- Whether index `i` holds a word character (`false` out of range). -/
def wIn (t : List Char) (i : Nat) : Bool := wordChar (charAt t i)

/-- Python `\b`: a word boundary sits at `pos` iff exactly one of the two
surrounding characters is a word character (out of range counts as non-word). -/
def atBoundary (t : List Char) (pos : Nat) : Bool :=
  (if pos == 0 then false else wIn t (pos - 1)) != wIn t pos

/-- A regex fragment: end positions of possible matches starting at `pos`,
in backtracking priority order. -/
abbrev Matcher : Type := List Char → Nat → List Nat

/-- Empty fragment. -/
def mEps : Matcher := fun _ pos => [pos]

/-- `\b` (zero-width). -/
def mWb : Matcher := fun t pos => if atBoundary t pos then [pos] else []

/-- Single character satisfying `p` (`\d`, `\s`, `[1-4]`, ...). -/
def mPred (p : Char → Bool) : Matcher := fun t pos =>
  if pos < t.length && p (charAt t pos) then [pos + 1] else []

/-- Case-insensitive character comparison (`re.IGNORECASE`). -/
def lowerEq (a b : Char) : Bool := a.toLower == b.toLower

/-- Does `cs` occur (case-insensitively) in `t` starting at `pos`? -/
def matchesCI : List Char → List Char → Nat → Bool
  | [], _, _ => true
  | c :: cs, t, pos => pos < t.length && lowerEq (charAt t pos) c && matchesCI cs t (pos + 1)

/-- Literal string (case-insensitive, as all patterns run under `re.IGNORECASE`). -/
def mLit (s : String) : Matcher := fun t pos =>
  if matchesCI s.data t pos then [pos + s.length] else []

/-- Concatenation of two fragments. -/
def mSeq (a b : Matcher) : Matcher := fun t pos => (a t pos).flatMap (b t)

/-- Alternation `(a|b|...)`: alternatives tried in written order. -/
def mAlt (ms : List Matcher) : Matcher := fun t pos => ms.flatMap (fun m => m t pos)

/-- `a?` (greedy: presence preferred). -/
def mOpt (a : Matcher) : Matcher := fun t pos => a t pos ++ [pos]

/-- Concatenation of a list of fragments. -/
def mSeqs (ms : List Matcher) : Matcher := ms.foldr mSeq mEps

/-- Length of the maximal prefix of characters satisfying `p`. -/
def countWhile (p : Char → Bool) : List Char → Nat
  | [] => 0
  | c :: cs => if p c then countWhile p cs + 1 else 0

/-- `p{lo,hi}` over a single-character class (greedy: longest first). -/
def mPredRep (p : Char → Bool) (lo hi : Nat) : Matcher := fun t pos =>
  let m := min (countWhile p (t.drop pos)) hi
  (List.range (m + 1)).reverse.filterMap fun k => if lo ≤ k then some (pos + k) else none

/-- `p+` over a single-character class (greedy: longest first). -/
def mPlus (p : Char → Bool) : Matcher := fun t pos =>
  let m := countWhile p (t.drop pos)
  (List.range m).reverse.map fun k => pos + (k + 1)

/-- Character range class such as `[1-4]`. -/
def mRange (lo hi : Char) : Matcher := mPred fun c => decide (lo ≤ c) && decide (c ≤ hi)

/-- `\b( core )\b` — the shape every pattern in `PATTERNS` has. -/
def anchored (core : Matcher) : Matcher := mSeq mWb (mSeq core mWb)

/-- `\d{lo,hi}`. -/
def mDigits (lo hi : Nat) : Matcher := mPredRep Char.isDigit lo hi

/-- `\s+`. -/
def mSpaces1 : Matcher := mPlus Char.isWhitespace

/-- `\b(Python|Rust|JavaScript|TypeScript|Go|Java|C\+\+|Ruby|Swift|Kotlin)\b` -/
def reTech1 : Matcher := anchored (mAlt [mLit "Python", mLit "Rust", mLit "JavaScript",
  mLit "TypeScript", mLit "Go", mLit "Java", mLit "C++", mLit "Ruby", mLit "Swift", mLit "Kotlin"])

/-- `\b(React|Vue|Angular|Next\.js|FastAPI|Django|Flask|Express)\b` -/
def reTech2 : Matcher := anchored (mAlt [mLit "React", mLit "Vue", mLit "Angular",
  mLit "Next.js", mLit "FastAPI", mLit "Django", mLit "Flask", mLit "Express"])

/-- `\b(PostgreSQL|MySQL|MongoDB|Redis|SurrealDB|Neo4j|Elasticsearch)\b` -/
def reTech3 : Matcher := anchored (mAlt [mLit "PostgreSQL", mLit "MySQL", mLit "MongoDB",
  mLit "Redis", mLit "SurrealDB", mLit "Neo4j", mLit "Elasticsearch"])

/-- `\b(Docker|Kubernetes|AWS|GCP|Azure|Terraform|Ansible)\b` -/
def reTech4 : Matcher := anchored (mAlt [mLit "Docker", mLit "Kubernetes", mLit "AWS",
  mLit "GCP", mLit "Azure", mLit "Terraform", mLit "Ansible"])

/-- `\b(TensorFlow|PyTorch|scikit-learn|XGBoost|LangChain)\b` -/
def reTech5 : Matcher := anchored (mAlt [mLit "TensorFlow", mLit "PyTorch",
  mLit "scikit-learn", mLit "XGBoost", mLit "LangChain"])

/-- `\b(GPT-\d|Claude|LLaMA|BERT|Transformer)\b` -/
def reTech6 : Matcher := anchored (mAlt [mSeq (mLit "GPT-") (mPred Char.isDigit),
  mLit "Claude", mLit "LLaMA", mLit "BERT", mLit "Transformer"])

/-- `\b(API|REST|GraphQL|gRPC|WebSocket)\b` -/
def reTech7 : Matcher := anchored (mAlt [mLit "API", mLit "REST", mLit "GraphQL",
  mLit "gRPC", mLit "WebSocket"])

/-- `\b(\d{4}-\d{2}-\d{2})\b` -/
def reDate1 : Matcher := anchored (mSeqs [mDigits 4 4, mLit "-", mDigits 2 2, mLit "-", mDigits 2 2])

/-- `\b(\d{1,2}/\d{1,2}/\d{4})\b` -/
def reDate2 : Matcher := anchored (mSeqs [mDigits 1 2, mLit "/", mDigits 1 2, mLit "/", mDigits 4 4])

/-- The month-name alternation of the third date pattern. -/
def monthAlt : Matcher := mAlt [mLit "January", mLit "February", mLit "March", mLit "April",
  mLit "May", mLit "June", mLit "July", mLit "August", mLit "September", mLit "October",
  mLit "November", mLit "December"]

/-- `\b(January|...|December)\s+\d{1,2},?\s+\d{4}\b` -/
def reDate3 : Matcher := anchored (mSeqs [monthAlt, mSpaces1, mDigits 1 2,
  mOpt (mLit ","), mSpaces1, mDigits 4 4])

/-- `\b(Q[1-4]\s+\d{4})\b` -/
def reDate4 : Matcher := anchored (mSeqs [mLit "Q", mRange '1' '4', mSpaces1, mDigits 4 4])

/-- `\b(machine learning|deep learning|neural network|artificial intelligence)\b` -/
def reConcept1 : Matcher := anchored (mAlt [mLit "machine learning", mLit "deep learning",
  mLit "neural network", mLit "artificial intelligence"])

/-- `\b(knowledge graph|vector search|semantic search|RAG)\b` -/
def reConcept2 : Matcher := anchored (mAlt [mLit "knowledge graph", mLit "vector search",
  mLit "semantic search", mLit "RAG"])

/-- `\b(microservices?|serverless|event-driven|distributed system)\b` -/
def reConcept3 : Matcher := anchored (mAlt [mSeq (mLit "microservice") (mOpt (mLit "s")),
  mLit "serverless", mLit "event-driven", mLit "distributed system"])

/-- The `EntityType` enumeration of `entities.py`. -/
inductive EntityType
  | person
  | organization
  | location
  | date
  | technology
  | concept
deriving DecidableEq

/-- The `.value` of each `EntityType` member (its string payload). -/
def EntityType.value : EntityType → String
  | .person => "person"
  | .organization => "organization"
  | .location => "location"
  | .date => "date"
  | .technology => "technology"
  | .concept => "concept"

/-- The `PATTERNS` table of `entities.py`, in dict insertion order:
technology, date, concept. -/
def PATTERNS : List (EntityType × List Matcher) :=
  [(.technology, [reTech1, reTech2, reTech3, reTech4, reTech5, reTech6, reTech7]),
   (.date, [reDate1, reDate2, reDate3, reDate4]),
   (.concept, [reConcept1, reConcept2, reConcept3])]

/-- `re.finditer`: scan start positions left to right; at the first position
where the pattern matches, record `(start, end)` (`end` being the engine's
preferred, i.e. first, candidate end) and resume after the match.  Fuel is an
upper bound on the number of scan steps; `t.length + 2` always suffices
because the scan position strictly increases. -/
def finditerAux (m : Matcher) (t : List Char) : Nat → Nat → List (Nat × Nat)
  | 0, _ => []
  | fuel + 1, pos =>
    if t.length < pos then []
    else
      match m t pos with
      | [] => finditerAux m t fuel (pos + 1)
      | e :: _ => (pos, e) :: finditerAux m t fuel (max e (pos + 1))

/-- All non-overlapping matches of `m` in `t`, as `(start, end)` pairs. -/
def finditer (m : Matcher) (t : List Char) : List (Nat × Nat) :=
  finditerAux m t (t.length + 2) 0

/-- The `ExtractedEntity` dataclass of `entities.py`
(`confidence` is exact, so it is carried as a rational). -/
structure ExtractedEntity where
  name : List Char
  entity_type : String
  start : Nat
  «end» : Nat
  confidence : ℚ
deriving DecidableEq

/-- Python slice `t[s:e]`. -/
def strSlice (t : List Char) (s e : Nat) : List Char := (t.drop s).take (e - s)

/-- The fixed `0.8` confidence every pattern match receives, as the exact
rational `4/5` (written in normal form so that it evaluates by reduction). -/
def CONFIDENCE : ℚ := ⟨4, 5, by norm_num, by norm_num⟩

/-- All candidate entities, in scan order (categories, then patterns within a
category, then matches left to right), before deduplication.  `name` is
`match.group(0)`, i.e. `text[start:end]` verbatim. -/
def rawCandidates (t : List Char) : List ExtractedEntity :=
  PATTERNS.flatMap fun tp =>
    tp.2.flatMap fun p =>
      (finditer p t).map fun se =>
        { name := strSlice t se.1 se.2, entity_type := tp.1.value,
          start := se.1, «end» := se.2, confidence := CONFIDENCE }

/-- The dedup key `(name.lower(), start, end)` of `entities.py`. -/
def entityKey (e : ExtractedEntity) : List Char × Nat × Nat :=
  (e.name.map Char.toLower, e.start, e.«end»)

/-- The `seen`-set loop of `extract_entities`: keep a candidate iff its key has
not been recorded by an earlier candidate. -/
def dedupScan (seen : List (List Char × Nat × Nat)) : List ExtractedEntity → List ExtractedEntity
  | [] => []
  | e :: rest =>
    if entityKey e ∈ seen then dedupScan seen rest
    else e :: dedupScan (entityKey e :: seen) rest

/-- `entities.sort(key=lambda e: e.start)` sorts by this relation. -/
def leStart (a b : ExtractedEntity) : Prop := a.start ≤ b.start

instance : DecidableRel leStart := fun a b => Nat.decLe a.start b.start

instance : IsTotal ExtractedEntity leStart := ⟨fun a b => Nat.le_total a.start b.start⟩

instance : IsTrans ExtractedEntity leStart := ⟨fun _ _ _ => Nat.le_trans⟩

/-- `extract_entities` from `entities.py`: scan every category/pattern in
declaration order collecting matches, dedupe by `(name.lower(), start, end)`
keeping the first candidate of each key, then sort ascending by `start`.
Python `list.sort` is stable; insertion sort is stable for this total
preorder, so it computes the same list. -/
def extract_entities (t : List Char) : List ExtractedEntity :=
  List.insertionSort leStart (dedupScan [] (rawCandidates t))

/-- `MODEL_NAME` from `embeddings.py`. -/
def MODEL_NAME : String := "paraphrase-multilingual-mpnet-base-v2"

/-- Squared Euclidean norm of a vector, over ℚ (exact arithmetic; the
norm-within-`0.01`-of-`1.0` condition is stated on the square, avoiding
square roots: `|‖v‖ - 1| ≤ 1/100 ↔ (99/100)² ≤ ‖v‖² ≤ (101/100)²`). -/
def normSq (v : List ℚ) : ℚ := (v.map fun x => x * x).sum

/-- Abstract stand-in for the third-party `SentenceTransformer` handle: its
output dimension and the per-text encoder obtained from
`model.encode(..., normalize_embeddings=True)` (which encodes each text of a
batch independently). -/
structure SentenceTransformer where
  dim : Nat
  encodeOne : String → List ℚ

/-- `get_model` from `embeddings.py`: lazy initialization of the module-global
`_model`, here passed as explicit state.  Returns the model to use and the
new value of `_model`; `loadModel` stands for the `SentenceTransformer(MODEL_NAME)`
constructor call and is only evaluated when the state is `none`. -/
def get_model (loadModel : Unit → SentenceTransformer) :
    Option SentenceTransformer → SentenceTransformer × Option SentenceTransformer
  | some m => (m, some m)
  | none => let m := loadModel (); (m, some m)

/-- `generate_embeddings` from `embeddings.py` with the module-global `_model`
as explicit state: an empty input returns `[]` at once (before `get_model` is
reached); otherwise the model is obtained (loading it if needed) and each text
is encoded, in order. -/
def generate_embeddings (loadModel : Unit → SentenceTransformer)
    (st : Option SentenceTransformer) (texts : List String) :
    Option SentenceTransformer × List (List ℚ) :=
  if texts.isEmpty then (st, [])
  else
    let ms := get_model loadModel st
    (ms.2, texts.map ms.1.encodeOne)

/-- `get_embedding_dimension` from `embeddings.py`. -/
def get_embedding_dimension (loadModel : Unit → SentenceTransformer)
    (st : Option SentenceTransformer) : Option SentenceTransformer × Nat :=
  let ms := get_model loadModel st
  (ms.2, ms.1.dim)

/-- The `HealthResponse` model of `server.py`. -/
structure HealthResponse where
  status : String
  model : String
  dimension : Nat

/-- The success path of the `GET /health` handler in `server.py`: it responds
with the hard-coded string `"all-MiniLM-L6-v2"` as the model identifier,
together with the reported embedding dimension. -/
def health (dim : Nat) : HealthResponse :=
  { status := "healthy", model := "all-MiniLM-L6-v2", dimension := dim }

/-- Well-formedness of a matcher: starting inside the text, every candidate
end position lies between the start position and the end of the text. -/
def SpanOK (m : Matcher) : Prop :=
  ∀ t pos e, pos ≤ t.length → e ∈ m t pos → pos ≤ e ∧ e ≤ t.length

lemma mem_finditerAux {m : Matcher} {t : List Char} :
    ∀ {fuel pos s ep}, (s, ep) ∈ finditerAux m t fuel pos →
      s ≤ t.length ∧ ∃ rest, m t s = ep :: rest := by
  intro fuel
  induction fuel with
  | zero => intro pos s ep h; simp [finditerAux] at h
  | succ n ih =>
    intro pos s ep h
    rw [finditerAux] at h
    by_cases hp : t.length < pos
    · simp [hp] at h
    · simp only [if_neg hp] at h
      rcases he : m t pos with _ | ⟨e, rest⟩
      · rw [he] at h; exact ih h
      · rw [he] at h
        rcases List.mem_cons.mp h with h1 | h2
        · rcases Prod.mk.injEq .. ▸ h1 with ⟨rfl, rfl⟩
          exact ⟨Nat.le_of_not_lt hp, rest, he⟩
        · exact ih h2

lemma mem_finditer {m : Matcher} {t : List Char} {s ep : Nat}
    (h : (s, ep) ∈ finditer m t) : s ≤ t.length ∧ ∃ rest, m t s = ep :: rest :=
  mem_finditerAux h

lemma mem_rawCandidates {t : List Char} {e : ExtractedEntity} (h : e ∈ rawCandidates t) :
    ∃ tp ∈ PATTERNS, ∃ p ∈ tp.2, ∃ se ∈ finditer p t,
      e = { name := strSlice t se.1 se.2, entity_type := tp.1.value,
            start := se.1, «end» := se.2, confidence := CONFIDENCE } := by
  simp only [rawCandidates, List.mem_flatMap, List.mem_map] at h
  obtain ⟨tp, htp, p, hp, se, hse, rfl⟩ := h
  exact ⟨tp, htp, p, hp, se, hse, rfl⟩

lemma dedupScan_subset : ∀ {l : List ExtractedEntity}
    {seen : List (List Char × Nat × Nat)} {e : ExtractedEntity},
    e ∈ dedupScan seen l → e ∈ l := by
  intro l
  induction l with
  | nil => intro seen e h; simp [dedupScan] at h
  | cons a rest ih =>
    intro seen e h
    rw [dedupScan] at h
    by_cases hk : entityKey a ∈ seen
    · rw [if_pos hk] at h
      exact List.mem_cons_of_mem a (ih h)
    · rw [if_neg hk] at h
      rcases List.mem_cons.mp h with h1 | h2
      · exact List.mem_cons.mpr (Or.inl h1)
      · exact List.mem_cons_of_mem a (ih h2)

lemma dedupScan_find : ∀ (l : List ExtractedEntity) (seen : List (List Char × Nat × Nat))
    (e : ExtractedEntity), e ∈ dedupScan seen l →
    entityKey e ∉ seen ∧ l.find? (fun c => decide (entityKey c = entityKey e)) = some e := by
  intro l
  induction l with
  | nil => intro seen e h; simp [dedupScan] at h
  | cons a rest ih =>
    intro seen e h
    rw [dedupScan] at h
    by_cases hk : entityKey a ∈ seen
    · rw [if_pos hk] at h
      obtain ⟨hnot, hfind⟩ := ih seen e h
      refine ⟨hnot, ?_⟩
      have hne : entityKey a ≠ entityKey e := fun hEq => hnot (hEq ▸ hk)
      simp [List.find?_cons, hne, hfind]
    · rw [if_neg hk] at h
      rcases List.mem_cons.mp h with h1 | h2
      · subst h1
        refine ⟨hk, ?_⟩
        simp [List.find?_cons]
      · obtain ⟨hnot, hfind⟩ := ih _ e h2
        have hne : entityKey a ≠ entityKey e := by
          intro hEq
          exact hnot (hEq ▸ List.mem_cons_self _ _)
        refine ⟨fun hm => hnot (List.mem_cons_of_mem _ hm), ?_⟩
        simp [List.find?_cons, hne, hfind]

lemma dedupScan_pairwise : ∀ (l : List ExtractedEntity) (seen : List (List Char × Nat × Nat)),
    (dedupScan seen l).Pairwise (fun a b => entityKey a ≠ entityKey b) := by
  intro l
  induction l with
  | nil => intro seen; simp [dedupScan]
  | cons a rest ih =>
    intro seen
    rw [dedupScan]
    by_cases hk : entityKey a ∈ seen
    · rw [if_pos hk]; exact ih seen
    · rw [if_neg hk]
      refine List.Pairwise.cons ?_ (ih _)
      intro b hb
      have := (dedupScan_find rest _ b hb).1
      intro hEq
      exact this (hEq ▸ List.mem_cons_self _ _)

lemma spanOK_mEps : SpanOK mEps := by
  intro t pos e hp he
  simp only [mEps, List.mem_singleton] at he
  exact ⟨he ▸ Nat.le_refl _, he ▸ hp⟩

lemma spanOK_mWb : SpanOK mWb := by
  intro t pos e hp he
  by_cases hb : atBoundary t pos
  · simp only [mWb, if_pos hb, List.mem_singleton] at he
    exact ⟨he ▸ Nat.le_refl _, he ▸ hp⟩
  · simp [mWb, hb] at he

lemma spanOK_mPred (p : Char → Bool) : SpanOK (mPred p) := by
  intro t pos e hp he
  unfold mPred at he
  split at he
  · next hc =>
    simp only [List.mem_singleton] at he
    subst he
    have h1 := (Bool.and_eq_true _ _).mp hc |>.1
    exact ⟨Nat.le_succ _, of_decide_eq_true h1⟩
  · simp at he

lemma matchesCI_le : ∀ (cs : List Char) (t : List Char) (pos : Nat),
    pos ≤ t.length → matchesCI cs t pos = true → pos + cs.length ≤ t.length := by
  intro cs
  induction cs with
  | nil => intro t pos hp _; simpa using hp
  | cons c cs ih =>
    intro t pos hp h
    rw [matchesCI] at h
    obtain ⟨h12, h3⟩ := (Bool.and_eq_true _ _).mp h
    obtain ⟨h1, _⟩ := (Bool.and_eq_true _ _).mp h12
    have hlt : pos < t.length := of_decide_eq_true h1
    have := ih t (pos + 1) hlt h3
    simpa [Nat.add_comm, Nat.add_left_comm, List.length_cons] using
      Nat.le_trans (Nat.le_of_eq (by omega : pos + (cs.length + 1) = pos + 1 + cs.length)) this

lemma spanOK_mLit (s : String) : SpanOK (mLit s) := by
  intro t pos e hp he
  unfold mLit at he
  split at he
  · next hc =>
    simp only [List.mem_singleton] at he
    subst he
    have : pos + s.data.length ≤ t.length := matchesCI_le s.data t pos hp hc
    exact ⟨Nat.le_add_right _ _, this⟩
  · simp at he

lemma spanOK_mSeq {a b : Matcher} (ha : SpanOK a) (hb : SpanOK b) : SpanOK (mSeq a b) := by
  intro t pos e hp he
  simp only [mSeq, List.mem_flatMap] at he
  obtain ⟨m1, hm1, he⟩ := he
  obtain ⟨h1, h2⟩ := ha t pos m1 hp hm1
  obtain ⟨h3, h4⟩ := hb t m1 e h2 he
  exact ⟨Nat.le_trans h1 h3, h4⟩

lemma spanOK_mAlt_nil : SpanOK (mAlt []) := by
  intro t pos e hp he
  simp [mAlt] at he

lemma spanOK_mAlt_cons {m : Matcher} {ms : List Matcher}
    (h1 : SpanOK m) (h2 : SpanOK (mAlt ms)) : SpanOK (mAlt (m :: ms)) := by
  intro t pos e hp he
  simp only [mAlt, List.flatMap_cons, List.mem_append] at he
  rcases he with he | he
  · exact h1 t pos e hp he
  · exact h2 t pos e hp (by simpa [mAlt] using he)

lemma spanOK_mOpt {a : Matcher} (ha : SpanOK a) : SpanOK (mOpt a) := by
  intro t pos e hp he
  simp only [mOpt, List.mem_append, List.mem_singleton] at he
  rcases he with he | rfl
  · exact ha t pos e hp he
  · exact ⟨Nat.le_refl _, hp⟩

lemma countWhile_le (p : Char → Bool) : ∀ l : List Char, countWhile p l ≤ l.length := by
  intro l
  induction l with
  | nil => simp [countWhile]
  | cons c cs ih =>
    rw [countWhile]
    split
    · simpa using ih
    · simp

lemma spanOK_mPredRep (p : Char → Bool) (lo hi : Nat) : SpanOK (mPredRep p lo hi) := by
  intro t pos e hp he
  simp only [mPredRep, List.mem_filterMap, List.mem_reverse, List.mem_range] at he
  obtain ⟨k, hk, hsome⟩ := he
  split at hsome
  · have he : e = pos + k := by simpa using hsome.symm
    subst he
    have hcount : countWhile p (t.drop pos) ≤ t.length - pos := by
      simpa using countWhile_le p (t.drop pos)
    have hkm : k ≤ min (countWhile p (t.drop pos)) hi := Nat.lt_succ_iff.mp hk
    have : k ≤ t.length - pos := Nat.le_trans hkm (Nat.le_trans (Nat.min_le_left _ _) hcount)
    exact ⟨Nat.le_add_right _ _, by omega⟩
  · simp at hsome

lemma spanOK_mPlus (p : Char → Bool) : SpanOK (mPlus p) := by
  intro t pos e hp he
  simp only [mPlus, List.mem_map, List.mem_reverse, List.mem_range] at he
  obtain ⟨k, hk, rfl⟩ := he
  have hcount : countWhile p (t.drop pos) ≤ t.length - pos := by
    simpa using countWhile_le p (t.drop pos)
  have : k + 1 ≤ t.length - pos := Nat.le_trans (Nat.succ_le_of_lt hk) hcount
  exact ⟨Nat.le_add_right _ _, by omega⟩

lemma spanOK_mRange (lo hi : Char) : SpanOK (mRange lo hi) := spanOK_mPred _

lemma spanOK_mDigits (lo hi : Nat) : SpanOK (mDigits lo hi) := spanOK_mPredRep _ _ _

lemma spanOK_mSpaces1 : SpanOK mSpaces1 := spanOK_mPlus _

lemma mSeqs_nil : mSeqs [] = mEps := rfl

lemma mSeqs_cons (m : Matcher) (ms : List Matcher) : mSeqs (m :: ms) = mSeq m (mSeqs ms) := rfl

lemma anchored_bounds {core : Matcher} {t : List Char} {pos e : Nat}
    (he : e ∈ anchored core t pos) :
    atBoundary t pos = true ∧ atBoundary t e = true ∧ e ∈ core t pos := by
  simp only [anchored, mSeq, List.mem_flatMap] at he
  obtain ⟨m1, hm1, he⟩ := he
  by_cases hb1 : atBoundary t pos
  · simp only [mWb, if_pos hb1, List.mem_singleton] at hm1
    subst hm1
    obtain ⟨m2, hm2, he⟩ := he
    by_cases hb2 : atBoundary t m2
    · simp only [mWb, if_pos hb2, List.mem_singleton] at he
      subst he
      exact ⟨hb1, hb2, hm2⟩
    · simp [mWb, hb2] at he
  · simp [mWb, hb1] at hm1

lemma spanOK_anchored {core : Matcher} (h : SpanOK core) : SpanOK (anchored core) :=
  spanOK_mSeq spanOK_mWb (spanOK_mSeq h spanOK_mWb)

lemma shape_reTech1 : ∃ core, reTech1 = anchored core ∧ SpanOK core := by
  refine ⟨_, rfl, ?_⟩
  try simp only [mSeqs_cons, mSeqs_nil, mDigits, mSpaces1, mRange, monthAlt]
  repeat'
    first
    | exact spanOK_mEps
    | exact spanOK_mWb
    | exact spanOK_mAlt_nil
    | exact spanOK_mLit _
    | exact spanOK_mPred _
    | exact spanOK_mPredRep _ _ _
    | exact spanOK_mPlus _
    | apply spanOK_mAlt_cons
    | apply spanOK_mSeq
    | apply spanOK_mOpt

lemma shape_reTech2 : ∃ core, reTech2 = anchored core ∧ SpanOK core := by
  refine ⟨_, rfl, ?_⟩
  try simp only [mSeqs_cons, mSeqs_nil, mDigits, mSpaces1, mRange, monthAlt]
  repeat'
    first
    | exact spanOK_mEps
    | exact spanOK_mWb
    | exact spanOK_mAlt_nil
    | exact spanOK_mLit _
    | exact spanOK_mPred _
    | exact spanOK_mPredRep _ _ _
    | exact spanOK_mPlus _
    | apply spanOK_mAlt_cons
    | apply spanOK_mSeq
    | apply spanOK_mOpt

lemma shape_reTech3 : ∃ core, reTech3 = anchored core ∧ SpanOK core := by
  refine ⟨_, rfl, ?_⟩
  try simp only [mSeqs_cons, mSeqs_nil, mDigits, mSpaces1, mRange, monthAlt]
  repeat'
    first
    | exact spanOK_mEps
    | exact spanOK_mWb
    | exact spanOK_mAlt_nil
    | exact spanOK_mLit _
    | exact spanOK_mPred _
    | exact spanOK_mPredRep _ _ _
    | exact spanOK_mPlus _
    | apply spanOK_mAlt_cons
    | apply spanOK_mSeq
    | apply spanOK_mOpt

lemma shape_reTech4 : ∃ core, reTech4 = anchored core ∧ SpanOK core := by
  refine ⟨_, rfl, ?_⟩
  try simp only [mSeqs_cons, mSeqs_nil, mDigits, mSpaces1, mRange, monthAlt]
  repeat'
    first
    | exact spanOK_mEps
    | exact spanOK_mWb
    | exact spanOK_mAlt_nil
    | exact spanOK_mLit _
    | exact spanOK_mPred _
    | exact spanOK_mPredRep _ _ _
    | exact spanOK_mPlus _
    | apply spanOK_mAlt_cons
    | apply spanOK_mSeq
    | apply spanOK_mOpt

lemma shape_reTech5 : ∃ core, reTech5 = anchored core ∧ SpanOK core := by
  refine ⟨_, rfl, ?_⟩
  try simp only [mSeqs_cons, mSeqs_nil, mDigits, mSpaces1, mRange, monthAlt]
  repeat'
    first
    | exact spanOK_mEps
    | exact spanOK_mWb
    | exact spanOK_mAlt_nil
    | exact spanOK_mLit _
    | exact spanOK_mPred _
    | exact spanOK_mPredRep _ _ _
    | exact spanOK_mPlus _
    | apply spanOK_mAlt_cons
    | apply spanOK_mSeq
    | apply spanOK_mOpt

lemma shape_reTech6 : ∃ core, reTech6 = anchored core ∧ SpanOK core := by
  refine ⟨_, rfl, ?_⟩
  try simp only [mSeqs_cons, mSeqs_nil, mDigits, mSpaces1, mRange, monthAlt]
  repeat'
    first
    | exact spanOK_mEps
    | exact spanOK_mWb
    | exact spanOK_mAlt_nil
    | exact spanOK_mLit _
    | exact spanOK_mPred _
    | exact spanOK_mPredRep _ _ _
    | exact spanOK_mPlus _
    | apply spanOK_mAlt_cons
    | apply spanOK_mSeq
    | apply spanOK_mOpt

lemma shape_reTech7 : ∃ core, reTech7 = anchored core ∧ SpanOK core := by
  refine ⟨_, rfl, ?_⟩
  try simp only [mSeqs_cons, mSeqs_nil, mDigits, mSpaces1, mRange, monthAlt]
  repeat'
    first
    | exact spanOK_mEps
    | exact spanOK_mWb
    | exact spanOK_mAlt_nil
    | exact spanOK_mLit _
    | exact spanOK_mPred _
    | exact spanOK_mPredRep _ _ _
    | exact spanOK_mPlus _
    | apply spanOK_mAlt_cons
    | apply spanOK_mSeq
    | apply spanOK_mOpt

lemma shape_reDate1 : ∃ core, reDate1 = anchored core ∧ SpanOK core := by
  refine ⟨_, rfl, ?_⟩
  try simp only [mSeqs_cons, mSeqs_nil, mDigits, mSpaces1, mRange, monthAlt]
  repeat'
    first
    | exact spanOK_mEps
    | exact spanOK_mWb
    | exact spanOK_mAlt_nil
    | exact spanOK_mLit _
    | exact spanOK_mPred _
    | exact spanOK_mPredRep _ _ _
    | exact spanOK_mPlus _
    | apply spanOK_mAlt_cons
    | apply spanOK_mSeq
    | apply spanOK_mOpt

lemma shape_reDate2 : ∃ core, reDate2 = anchored core ∧ SpanOK core := by
  refine ⟨_, rfl, ?_⟩
  try simp only [mSeqs_cons, mSeqs_nil, mDigits, mSpaces1, mRange, monthAlt]
  repeat'
    first
    | exact spanOK_mEps
    | exact spanOK_mWb
    | exact spanOK_mAlt_nil
    | exact spanOK_mLit _
    | exact spanOK_mPred _
    | exact spanOK_mPredRep _ _ _
    | exact spanOK_mPlus _
    | apply spanOK_mAlt_cons
    | apply spanOK_mSeq
    | apply spanOK_mOpt

lemma shape_reDate3 : ∃ core, reDate3 = anchored core ∧ SpanOK core := by
  refine ⟨_, rfl, ?_⟩
  try simp only [mSeqs_cons, mSeqs_nil, mDigits, mSpaces1, mRange, monthAlt]
  repeat'
    first
    | exact spanOK_mEps
    | exact spanOK_mWb
    | exact spanOK_mAlt_nil
    | exact spanOK_mLit _
    | exact spanOK_mPred _
    | exact spanOK_mPredRep _ _ _
    | exact spanOK_mPlus _
    | apply spanOK_mAlt_cons
    | apply spanOK_mSeq
    | apply spanOK_mOpt

lemma shape_reDate4 : ∃ core, reDate4 = anchored core ∧ SpanOK core := by
  refine ⟨_, rfl, ?_⟩
  try simp only [mSeqs_cons, mSeqs_nil, mDigits, mSpaces1, mRange, monthAlt]
  repeat'
    first
    | exact spanOK_mEps
    | exact spanOK_mWb
    | exact spanOK_mAlt_nil
    | exact spanOK_mLit _
    | exact spanOK_mPred _
    | exact spanOK_mPredRep _ _ _
    | exact spanOK_mPlus _
    | apply spanOK_mAlt_cons
    | apply spanOK_mSeq
    | apply spanOK_mOpt

lemma shape_reConcept1 : ∃ core, reConcept1 = anchored core ∧ SpanOK core := by
  refine ⟨_, rfl, ?_⟩
  try simp only [mSeqs_cons, mSeqs_nil, mDigits, mSpaces1, mRange, monthAlt]
  repeat'
    first
    | exact spanOK_mEps
    | exact spanOK_mWb
    | exact spanOK_mAlt_nil
    | exact spanOK_mLit _
    | exact spanOK_mPred _
    | exact spanOK_mPredRep _ _ _
    | exact spanOK_mPlus _
    | apply spanOK_mAlt_cons
    | apply spanOK_mSeq
    | apply spanOK_mOpt

lemma shape_reConcept2 : ∃ core, reConcept2 = anchored core ∧ SpanOK core := by
  refine ⟨_, rfl, ?_⟩
  try simp only [mSeqs_cons, mSeqs_nil, mDigits, mSpaces1, mRange, monthAlt]
  repeat'
    first
    | exact spanOK_mEps
    | exact spanOK_mWb
    | exact spanOK_mAlt_nil
    | exact spanOK_mLit _
    | exact spanOK_mPred _
    | exact spanOK_mPredRep _ _ _
    | exact spanOK_mPlus _
    | apply spanOK_mAlt_cons
    | apply spanOK_mSeq
    | apply spanOK_mOpt

lemma shape_reConcept3 : ∃ core, reConcept3 = anchored core ∧ SpanOK core := by
  refine ⟨_, rfl, ?_⟩
  try simp only [mSeqs_cons, mSeqs_nil, mDigits, mSpaces1, mRange, monthAlt]
  repeat'
    first
    | exact spanOK_mEps
    | exact spanOK_mWb
    | exact spanOK_mAlt_nil
    | exact spanOK_mLit _
    | exact spanOK_mPred _
    | exact spanOK_mPredRep _ _ _
    | exact spanOK_mPlus _
    | apply spanOK_mAlt_cons
    | apply spanOK_mSeq
    | apply spanOK_mOpt

/-- Every pattern in the table is `\b( core )\b` for a well-formed `core`. -/
lemma pattern_shape : ∀ tp ∈ PATTERNS, ∀ p ∈ tp.2, ∃ core, p = anchored core ∧ SpanOK core := by
  intro tp htp p hp
  simp only [PATTERNS, List.mem_cons, List.not_mem_nil, or_false] at htp
  rcases htp with rfl | rfl | rfl <;>
    simp only [List.mem_cons, List.not_mem_nil, or_false] at hp
  · rcases hp with rfl | rfl | rfl | rfl | rfl | rfl | rfl
    exacts [shape_reTech1, shape_reTech2, shape_reTech3, shape_reTech4,
            shape_reTech5, shape_reTech6, shape_reTech7]
  · rcases hp with rfl | rfl | rfl | rfl
    exacts [shape_reDate1, shape_reDate2, shape_reDate3, shape_reDate4]
  · rcases hp with rfl | rfl | rfl
    exacts [shape_reConcept1, shape_reConcept2, shape_reConcept3]

/-- The categories appearing in the table. -/
lemma pattern_types : ∀ tp ∈ PATTERNS,
    tp.1 = EntityType.technology ∨ tp.1 = EntityType.date ∨ tp.1 = EntityType.concept := by
  intro tp htp
  simp only [PATTERNS, List.mem_cons, List.not_mem_nil, or_false] at htp
  rcases htp with rfl | rfl | rfl
  · exact Or.inl rfl
  · exact Or.inr (Or.inl rfl)
  · exact Or.inr (Or.inr rfl)

/-- Everything surviving extraction is a raw candidate. -/
lemma extract_mem_raw {t : List Char} {e : ExtractedEntity} (h : e ∈ extract_entities t) :
    e ∈ dedupScan [] (rawCandidates t) ∧ e ∈ rawCandidates t := by
  have h1 : e ∈ dedupScan [] (rawCandidates t) :=
    (List.mem_insertionSort leStart).mp h
  exact ⟨h1, dedupScan_subset h1⟩

/-- Structural facts true of every raw candidate: its name is the verbatim
slice of the text at its span, the span is well-formed and word-boundary
anchored on both sides, and its category is one of the three in the table. -/
lemma rawCandidates_shape {t : List Char} {e : ExtractedEntity} (h : e ∈ rawCandidates t) :
    e.name = strSlice t e.start e.«end» ∧
    e.start ≤ e.«end» ∧ e.«end» ≤ t.length ∧
    atBoundary t e.start = true ∧ atBoundary t e.«end» = true ∧
    (e.entity_type = EntityType.technology.value ∨ e.entity_type = EntityType.date.value ∨
      e.entity_type = EntityType.concept.value) := by
  obtain ⟨tp, htp, p, hp, se, hse, rfl⟩ := mem_rawCandidates h
  obtain ⟨core, rfl, hcore⟩ := pattern_shape tp htp p hp
  obtain ⟨hs_le, rest, hmt⟩ := mem_finditer hse
  have hep : se.2 ∈ anchored core t se.1 := hmt ▸ List.mem_cons_self _ _
  obtain ⟨hb1, hb2, _⟩ := anchored_bounds hep
  obtain ⟨h1, h2⟩ := spanOK_anchored hcore t se.1 se.2 hs_le hep
  refine ⟨rfl, h1, h2, hb1, hb2, ?_⟩
  rcases pattern_types tp htp with ht | ht | ht <;> rw [ht]
  · exact Or.inl rfl
  · exact Or.inr (Or.inl rfl)
  · exact Or.inr (Or.inr rfl)

lemma filter_orderedInsert_start (s : Nat) (a : ExtractedEntity) (l : List ExtractedEntity) :
    (List.orderedInsert leStart a l).filter (fun e => decide (e.start = s)) =
      if a.start = s then a :: l.filter (fun e => decide (e.start = s))
      else l.filter (fun e => decide (e.start = s)) := by
  induction l with
  | nil =>
    by_cases has : a.start = s <;> simp [List.orderedInsert, List.filter, has]
  | cons b l ih =>
    rw [List.orderedInsert]
    by_cases hab : leStart a b
    · rw [if_pos hab]
      by_cases has : a.start = s <;> simp [List.filter_cons, has]
    · rw [if_neg hab]
      have hbs : b.start < a.start := Nat.lt_of_not_le hab
      by_cases has : a.start = s
      · have hbneq : ¬(b.start = s) := by omega
        simp [List.filter_cons, hbneq, ih, has]
      · by_cases hbs2 : b.start = s <;> simp [List.filter_cons, hbs2, ih, has]

/-- Stability of the final sort: the sorted output lists the entities of any
fixed start offset in the same relative order as its input. -/
lemma filter_insertionSort_start (s : Nat) (l : List ExtractedEntity) :
    (List.insertionSort leStart l).filter (fun e => decide (e.start = s)) =
      l.filter (fun e => decide (e.start = s)) := by
  induction l with
  | nil => rfl
  | cons a l ih =>
    rw [List.insertionSort, filter_orderedInsert_start, ih]
    by_cases has : a.start = s <;> simp [List.filter_cons, has]


lemma charAt_of_strSlice {t : List Char} {p len : Nat} {cs : List Char} {c : Char}
    (h : strSlice t p (p + len) = cs) (i : Nat) (hi : i < len) (hc : cs[i]? = some c) :
    charAt t (p + i) = c := by
  have hplen : p + len - p = len := by omega
  rw [strSlice, hplen] at h
  have h1 : ((t.drop p).take len)[i]? = (t.drop p)[i]? := List.getElem?_take_of_lt hi
  rw [h] at h1
  have h2 : (t.drop p)[i]? = t[p + i]? := List.getElem?_drop t p i
  rw [charAt, List.getD_eq_getElem?_getD, ← h2, ← h1, hc]
  rfl

lemma atBoundary_succ (t : List Char) (i : Nat) :
    atBoundary t (i + 1) = (wIn t i != wIn t (i + 1)) := by
  simp [atBoundary]

/-- **C1.**  For every input `t` and every entity `e` in `extract_entities t`,
the slice `t[e.start:e.end]` (0-indexed, end-exclusive character offsets into
the original input) equals `e.name` verbatim, original casing included. -/
theorem extracted_name_verbatim (t : List Char) (e : ExtractedEntity)
    (h : e ∈ extract_entities t) : strSlice t e.start e.«end» = e.name :=
  ((rawCandidates_shape (extract_mem_raw h).2).1).symm

/-- Witness for C1: the entity `"Go"` at span `[4,6)` of `"use Go"`. -/
theorem extracted_name_verbatim_witness :
    ((⟨"Go".data, "technology", 4, 6, CONFIDENCE⟩ : ExtractedEntity) ∈
      extract_entities "use Go".data) ∧
    strSlice "use Go".data 4 6 = "Go".data := by
  have hm : (⟨"Go".data, "technology", 4, 6, CONFIDENCE⟩ : ExtractedEntity) ∈
      extract_entities "use Go".data := by decide
  exact ⟨hm, extracted_name_verbatim _ _ hm⟩

/-- **C2.**  No two returned entities share the `(name.lower(), start, end)`
triple, and each returned entity is the *first* candidate of its triple in
category/pattern iteration order (so a later duplicate is the one discarded). -/
theorem extracted_dedup (t : List Char) :
    (extract_entities t).Pairwise (fun a b => entityKey a ≠ entityKey b) ∧
    ∀ e ∈ extract_entities t,
      (rawCandidates t).find? (fun c => decide (entityKey c = entityKey e)) = some e := by
  constructor
  · have hperm : List.Perm (extract_entities t) (dedupScan [] (rawCandidates t)) :=
      List.perm_insertionSort leStart _
    exact (hperm.pairwise_iff (fun hab hEq => hab hEq.symm)).mpr (dedupScan_pairwise _ _)
  · intro e he
    exact (dedupScan_find _ _ e (extract_mem_raw he).1).2

/-- Witness for C2: the `"Go"` entity is the first raw candidate of its key. -/
theorem extracted_dedup_witness :
    (rawCandidates "use Go".data).find?
      (fun c => decide (entityKey c =
        entityKey ⟨"Go".data, "technology", 4, 6, CONFIDENCE⟩)) =
      some ⟨"Go".data, "technology", 4, 6, CONFIDENCE⟩ :=
  (extracted_dedup "use Go".data).2 _ (by decide)

/-- **C3.**  The returned list is sorted ascending by `start`, and entities
with equal `start` keep the relative order in which the scan produced them
(the sort is stable over the deduplicated scan sequence). -/
theorem extracted_sorted (t : List Char) :
    List.Sorted leStart (extract_entities t) ∧
    ∀ s : Nat, (extract_entities t).filter (fun e => decide (e.start = s)) =
      (dedupScan [] (rawCandidates t)).filter (fun e => decide (e.start = s)) :=
  ⟨List.sorted_insertionSort leStart _, fun s => filter_insertionSort_start s _⟩

/-- **C6.**  Extraction is total (it is a Lean function, defined on every
input); the empty string, and more generally any input producing no pattern
match, yields the empty list rather than an error. -/
theorem extract_entities_total :
    extract_entities [] = [] ∧
    ∀ t : List Char, rawCandidates t = [] → extract_entities t = [] := by
  refine ⟨rfl, ?_⟩
  intro t h
  rw [extract_entities, h]
  rfl

/-- Witness for C6: an input matching no pattern yields `[]`. -/
theorem extract_entities_total_witness :
    rawCandidates "plain text".data = [] ∧
    extract_entities "plain text".data = [] := by
  have h : rawCandidates "plain text".data = [] := by decide
  exact ⟨h, extract_entities_total.2 _ h⟩

/-- **C7.**  Matching is word-boundary-anchored: every extracted span has a
word boundary at both ends.  Consequently, an occurrence of `"Pythonic"` at
offset `p` never yields an entity named `"Python"` spanning `[p, p+6)` (the
`"Python"` prefix of that occurrence), because `n` and `i` are both word
characters. -/
theorem extraction_word_boundary :
    (∀ (t : List Char) (e : ExtractedEntity), e ∈ extract_entities t →
      atBoundary t e.start = true ∧ atBoundary t e.«end» = true) ∧
    (∀ (t : List Char) (p : Nat), strSlice t p (p + 8) = "Pythonic".data →
      ∀ e ∈ extract_entities t,
        ¬(e.name = "Python".data ∧ e.start = p ∧ e.«end» = p + 6)) := by
  have hbound : ∀ (t : List Char) (e : ExtractedEntity), e ∈ extract_entities t →
      atBoundary t e.start = true ∧ atBoundary t e.«end» = true := by
    intro t e he
    obtain ⟨_, _, _, hb1, hb2, _⟩ := rawCandidates_shape (extract_mem_raw he).2
    exact ⟨hb1, hb2⟩
  refine ⟨hbound, ?_⟩
  intro t p hsl e he hcontra
  obtain ⟨hname, hstart, hend⟩ := hcontra
  have hn : charAt t (p + 5) = 'n' := charAt_of_strSlice hsl 5 (by omega) rfl
  have hi : charAt t (p + 6) = 'i' := charAt_of_strSlice hsl 6 (by omega) rfl
  have hb2 := (hbound t e he).2
  rw [hend] at hb2
  have hfalse : atBoundary t (p + 6) = false := by
    have h5 : wIn t (p + 5) = true := by rw [wIn, hn]; rfl
    have h6 : wIn t (p + 6) = true := by rw [wIn, hi]; rfl
    have := atBoundary_succ t (p + 5)
    rw [show p + 5 + 1 = p + 6 from rfl] at this
    rw [this, h5, h6]
    rfl
  rw [hfalse] at hb2
  exact Bool.false_ne_true hb2

/-- Witness for C7: both parts applied at concrete inputs — the `"Go"` span of
`"use Go"` is boundary-anchored, and the `"Go"` entity of `"Pythonic Go"` is
not a `"Python"` entity spanning the prefix of `"Pythonic"`. -/
theorem extraction_word_boundary_witness :
    (atBoundary "use Go".data 4 = true ∧ atBoundary "use Go".data 6 = true) ∧
    ¬((⟨"Go".data, "technology", 9, 11, CONFIDENCE⟩ : ExtractedEntity).name = "Python".data ∧
      (⟨"Go".data, "technology", 9, 11, CONFIDENCE⟩ : ExtractedEntity).start = 0 ∧
      (⟨"Go".data, "technology", 9, 11, CONFIDENCE⟩ : ExtractedEntity).«end» = 0 + 6) :=
  ⟨extraction_word_boundary.1 "use Go".data ⟨"Go".data, "technology", 4, 6, CONFIDENCE⟩
      (by decide),
   extraction_word_boundary.2 "Pythonic Go".data 0 rfl
      ⟨"Go".data, "technology", 9, 11, CONFIDENCE⟩ (by decide)⟩

/-- **C9.**  Every returned entity's `entity_type` is `"technology"`, `"date"`
or `"concept"`; the declared `person`, `organization` and `location` members
of the enumeration are never produced, as the table has no rules for them. -/
theorem extracted_entity_types (t : List Char) (e : ExtractedEntity)
    (h : e ∈ extract_entities t) :
    (e.entity_type = "technology" ∨ e.entity_type = "date" ∨ e.entity_type = "concept") ∧
    e.entity_type ≠ EntityType.person.value ∧
    e.entity_type ≠ EntityType.organization.value ∧
    e.entity_type ≠ EntityType.location.value := by
  have h6 := (rawCandidates_shape (extract_mem_raw h).2).2.2.2.2.2
  refine ⟨h6, ?_⟩
  rcases h6 with h1 | h1 | h1 <;> rw [h1] <;> exact ⟨by decide, by decide, by decide⟩

/-- Witness for C9 at the `"Go"` entity of `"use Go"`. -/
theorem extracted_entity_types_witness :
    (((⟨"Go".data, "technology", 4, 6, CONFIDENCE⟩ : ExtractedEntity).entity_type = "technology" ∨
      (⟨"Go".data, "technology", 4, 6, CONFIDENCE⟩ : ExtractedEntity).entity_type = "date" ∨
      (⟨"Go".data, "technology", 4, 6, CONFIDENCE⟩ : ExtractedEntity).entity_type = "concept") ∧
     (⟨"Go".data, "technology", 4, 6, CONFIDENCE⟩ : ExtractedEntity).entity_type ≠
       EntityType.person.value ∧
     (⟨"Go".data, "technology", 4, 6, CONFIDENCE⟩ : ExtractedEntity).entity_type ≠
       EntityType.organization.value ∧
     (⟨"Go".data, "technology", 4, 6, CONFIDENCE⟩ : ExtractedEntity).entity_type ≠
       EntityType.location.value) :=
  extracted_entity_types "use Go".data _ (by decide)

/-- **C10.**  In any input where every occurrence of `"C++"` is followed by a
non-word character or the end of the string, no entity named `"C++"` is
returned: the trailing `\b` of `\bC\+\+\b` can only match when a word
character immediately follows the second `+`. -/
theorem cpp_vocab_unreachable (t : List Char)
    (h : ∀ p, p < t.length → strSlice t p (p + 3) = "C++".data →
      p + 3 = t.length ∨ wordChar (charAt t (p + 3)) = false) :
    ∀ e ∈ extract_entities t, e.name ≠ "C++".data := by
  intro e he hname
  obtain ⟨hsl, hse, hel, _, hb2, _⟩ := rawCandidates_shape (extract_mem_raw he).2
  have hs2 : strSlice t e.start e.«end» = "C++".data := hsl.symm.trans hname
  have hlen : (strSlice t e.start e.«end»).length = 3 := by rw [hs2]; rfl
  rw [strSlice, List.length_take, List.length_drop] at hlen
  have he3 : e.«end» = e.start + 3 := by omega
  have hs3 : e.start + 3 ≤ t.length := by omega
  have hslice3 : strSlice t e.start (e.start + 3) = "C++".data := by rw [← he3]; exact hs2
  have hplus : charAt t (e.start + 2) = '+' := charAt_of_strSlice hslice3 2 (by omega) rfl
  have hw2 : wIn t (e.start + 2) = false := by rw [wIn, hplus]; rfl
  have hw3 : wIn t (e.start + 3) = false := by
    rcases h e.start (by omega) hslice3 with hEnd | hw
    · rw [wIn, charAt, List.getD_eq_getElem?_getD, List.getElem?_eq_none (by omega)]
      rfl
    · rw [wIn, hw]
  have hfalse : atBoundary t (e.start + 3) = false := by
    have := atBoundary_succ t (e.start + 2)
    rw [show e.start + 2 + 1 = e.start + 3 from rfl] at this
    rw [this, hw2, hw3]
    rfl
  rw [he3, hfalse] at hb2
  exact Bool.false_ne_true hb2

/-- Witness for C10: in `"use Go and C++ ok"` the `"C++"` occurrence is
followed by a space, and the one extracted entity is not named `"C++"`. -/
theorem cpp_vocab_unreachable_witness :
    (⟨"Go".data, "technology", 4, 6, CONFIDENCE⟩ : ExtractedEntity).name ≠ "C++".data :=
  cpp_vocab_unreachable "use Go and C++ ok".data (by decide) _ (by decide)

/-- **C4.**  For every non-empty list of texts, `generate_embeddings` returns
one vector per text, in order, the `i`-th output being the encoding of the
`i`-th input; every returned vector has length `get_embedding_dimension` and
Euclidean norm within `0.01` of `1.0` (stated on the squared norm:
`(99/100)² ≤ ‖v‖² ≤ (101/100)²`).  The hypothesis `henc` is the contract of
`model.encode(..., normalize_embeddings=True)`: each encoding has the model's
dimension and exactly unit norm. -/
theorem generate_embeddings_batch (M : SentenceTransformer)
    (load : Unit → SentenceTransformer) (texts : List String) (hne : texts ≠ [])
    (henc : ∀ s : String, (M.encodeOne s).length = M.dim ∧ normSq (M.encodeOne s) = 1) :
    (generate_embeddings load (some M) texts).2.length = texts.length ∧
    (∀ (i : Nat) (hi : i < texts.length),
      (generate_embeddings load (some M) texts).2[i]? = some (M.encodeOne texts[i])) ∧
    (∀ v ∈ (generate_embeddings load (some M) texts).2,
      v.length = (get_embedding_dimension load (some M)).2 ∧
      ((99 : ℚ)/100)^2 ≤ normSq v ∧ normSq v ≤ ((101 : ℚ)/100)^2) := by
  have hnemp : texts.isEmpty = false := by
    cases texts with
    | nil => exact absurd rfl hne
    | cons a as => rfl
  have hout : (generate_embeddings load (some M) texts).2 = texts.map M.encodeOne := by
    rw [generate_embeddings, hnemp]
    rfl
  refine ⟨?_, ?_, ?_⟩
  · rw [hout, List.length_map]
  · intro i hi
    rw [hout, List.getElem?_map, List.getElem?_eq_getElem hi]
    rfl
  · intro v hv
    rw [hout] at hv
    obtain ⟨s, _, rfl⟩ := List.mem_map.mp hv
    obtain ⟨hlen, hnorm⟩ := henc s
    refine ⟨hlen, ?_, ?_⟩
    · rw [hnorm]; norm_num
    · rw [hnorm]; norm_num

/-- Witness for C4 with a one-dimensional stand-in encoder. -/
theorem generate_embeddings_batch_witness :
    (generate_embeddings (fun _ => ⟨1, fun _ => [(1 : ℚ)]⟩)
      (some ⟨1, fun _ => [(1 : ℚ)]⟩) ["a"]).2.length = (["a"] : List String).length :=
  (generate_embeddings_batch ⟨1, fun _ => [(1 : ℚ)]⟩ (fun _ => ⟨1, fun _ => [(1 : ℚ)]⟩)
    ["a"] (by simp) (fun _ => ⟨rfl, by simp [normSq]⟩)).1

/-- **C5.**  `generate_embeddings` on the empty list returns `[]` and leaves
the module-global model state unchanged, for every loader and every starting
state — in particular a not-yet-loaded model (`st = none`) stays unloaded, and
the result never depends on the loader, i.e. the model is not invoked. -/
theorem generate_embeddings_empty (load : Unit → SentenceTransformer)
    (st : Option SentenceTransformer) :
    generate_embeddings load st [] = (st, []) := rfl

/-- **C8.**  The `/health` success response carries the hard-coded string
`"all-MiniLM-L6-v2"`, which differs from the configured and loaded
`MODEL_NAME = "paraphrase-multilingual-mpnet-base-v2"` — the endpoint does
*not* report the model identifier actually configured. -/
theorem health_model_mismatch :
    (health 768).model = "all-MiniLM-L6-v2" ∧
    MODEL_NAME = "paraphrase-multilingual-mpnet-base-v2" ∧
    (health 768).model ≠ MODEL_NAME :=
  ⟨rfl, rfl, by decide⟩
